import Mathlib

/-!
Verification of the audiolens frontend (src/frontend/app.js).

Times are modelled as rationals; the JS lead bias 0.15 is the rational 3/20.
The caption data model and the per-frame synchronisation step are translated
from the source file: buildcaptions, synccaptions, startPoll and the
loadedmetadata handler.
-/

namespace Audiolens

/-- Whitespace characters stripped by the JS string trim primitive (the
ones that can occur in recognition output). -/
def isWSChar (c : Char) : Bool :=
  c = ' ' || c = '\t' || c = '\n' || c = '\r'

/-- Model of the JS trim primitive: strip leading and trailing whitespace.
Defined over the character list so that it evaluates in the kernel. -/
def jsTrim (s : String) : String :=
  ⟨((s.data.dropWhile isWSChar).reverse.dropWhile isWSChar).reverse⟩

/-- A word with timing, as produced by the recognition model
(field word, start, end in the JSON; end is renamed endT since end is a
Lean keyword). -/
structure RawWord where
  word : String
  start : ℚ
  endT : ℚ
deriving Repr, DecidableEq

/-- A raw transcript segment from the model: optional word list, optional
segment text, segment-level bounds. -/
structure RawSeg where
  words : List RawWord
  text : Option String
  start : ℚ
  endT : ℚ
deriving Repr, DecidableEq

/-- A normalised caption segment as stored by buildcaptions. -/
structure Seg where
  text : String
  start : ℚ
  endT : ℚ
deriving Repr, DecidableEq

/-- The reconstructed text of a raw segment before the outer trim, from
buildcaptions: hasW ? seg.words.map(w => w.word.trim()).join(' ')
: seg.text || '' -/
def rawText (seg : RawSeg) : String :=
  if seg.words.length > 0 then
    " ".intercalate (seg.words.map fun w => jsTrim w.word)
  else seg.text.getD ""

/-- The reconstructed text after the outer trim of buildcaptions. -/
def segText (seg : RawSeg) : String :=
  jsTrim (rawText seg)

/-- Normalisation of one raw segment, from the loop body of buildcaptions:
segments with empty reconstructed text are skipped (continue); bounds come
from the first and last word when a word list is present, otherwise from the
segment-level fields. -/
def normSeg (seg : RawSeg) : Option Seg :=
  let text := segText seg
  if text = "" then none
  else some
    { text := text,
      start := if seg.words.length > 0 then
          (seg.words.head?.map RawWord.start).getD seg.start
        else seg.start,
      endT := if seg.words.length > 0 then
          (seg.words.getLast?.map RawWord.endT).getD seg.endT
        else seg.endT }

/-- buildcaptions: fold the raw segments through normSeg, keeping the hits. -/
def buildcaptions (data : List RawSeg) : List Seg :=
  data.filterMap normSeg

/-- The scan loop of synccaptions, returning the zero-based index of the
first segment with t within [start, endT]; the loop breaks early once a
segment with start greater than t is reached. -/
def scanAux (t : ℚ) : List Seg → Option Nat
  | [] => none
  | s :: rest =>
    if t ≥ s.start ∧ t ≤ s.endT then some 0
    else if s.start > t then none
    else (scanAux t rest).map (· + 1)

/-- The computed active index of the scan, with the -1 sentinel of the JS
variable idx. -/
def findActive (segs : List Seg) (t : ℚ) : Int :=
  match scanAux t segs with
  | some i => (i : Int)
  | none => -1

/-- The lead bias added to the playback clock (0.15 s in the source). -/
def leadBias : ℚ := mkRat 3 20

/-- The index computed by one sync frame: const t = audioPlayer.currentTime
+ 0.15 followed by the scan. -/
def frameIdx (segs : List Seg) (currentTime : ℚ) : Int :=
  findActive segs (currentTime + leadBias)

/-- The mutable state of the sync engine: the stored active index and the
displayed caption text. -/
structure SyncState where
  activeIdx : Int
  caption : String
deriving Repr, DecidableEq

/-- One frame of synccaptions: early return when the segment list is empty
or captions are hidden; otherwise compute the index and, only on an index
change, store it and swap the displayed caption (empty on -1). -/
def synccaptions (segs : List Seg) (captionsVisible : Bool) (currentTime : ℚ)
    (st : SyncState) : SyncState :=
  if segs.isEmpty || !captionsVisible then st
  else
    let idx := frameIdx segs currentTime
    if idx ≠ st.activeIdx then
      { activeIdx := idx,
        caption := if idx = -1 then "" else ((segs[idx.toNat]?).map Seg.text).getD "" }
    else st

/-- Highlight transition events observable from one frame. -/
inductive Ev where
  | enter (i : Nat)
  | leave (i : Nat)
deriving Repr, DecidableEq

/-- The transition events emitted by one frame, read off the state change of
synccaptions: nothing when the stored index is unchanged, otherwise one
leave of the old segment (when there was one) followed by one enter of the
new segment (when there is one). -/
def frameEvents (segs : List Seg) (captionsVisible : Bool) (currentTime : ℚ)
    (st : SyncState) : List Ev :=
  let st2 := synccaptions segs captionsVisible currentTime st
  if st2.activeIdx = st.activeIdx then []
  else
    (if 0 ≤ st.activeIdx then [Ev.leave st.activeIdx.toNat] else [])
      ++ (if 0 ≤ st2.activeIdx then [Ev.enter st2.activeIdx.toNat] else [])

/-- Run the frame loop over a list of clock samples, collecting the final
state and all emitted events. -/
def runFrames (segs : List Seg) (captionsVisible : Bool) (st : SyncState) :
    List ℚ → SyncState × List Ev
  | [] => (st, [])
  | c :: cs =>
    let evs := frameEvents segs captionsVisible c st
    let st2 := synccaptions segs captionsVisible c st
    let r := runFrames segs captionsVisible st2 cs
    (r.1, evs ++ r.2)

/-- Modelled from the spec: the unoptimized full scan that selects the first
segment with start ≤ t ≤ end over the whole list, with no early break. Used
only to compare against the implemented scan. -/
def fullScanAux (t : ℚ) : List Seg → Option Nat
  | [] => none
  | s :: rest =>
    if s.start ≤ t ∧ t ≤ s.endT then some 0
    else (fullScanAux t rest).map (· + 1)

/-- Modelled from the spec: the unoptimized full scan with the -1 sentinel. -/
def fullScanSpec (segs : List Seg) (t : ℚ) : Int :=
  match fullScanAux t segs with
  | some i => (i : Int)
  | none => -1

/-- Position i of the segment list qualifies at time t. -/
def qualAt (segs : List Seg) (t : ℚ) (i : Nat) : Prop :=
  ∃ s, segs[i]? = some s ∧ s.start ≤ t ∧ t ≤ s.endT

/-- Outcome of one poll tick of startPoll. -/
structure PollResult where
  stopped : Bool
  openReader : Bool
  errorShown : Bool
deriving Repr, DecidableEq

/-- One tick of the startPoll interval: a failed fetch (none) does nothing;
status completed clears the interval and opens the reader via show; status
error clears the interval and shows the error message; anything else keeps
polling. -/
def startPollTick (resp : Option String) : PollResult :=
  match resp with
  | none => ⟨false, false, false⟩
  | some status =>
    if status = "completed" then ⟨true, true, false⟩
    else if status = "error" then ⟨true, false, true⟩
    else ⟨false, false, false⟩

/-- The whole polling loop: ticks run in order until one stops the interval,
whose outcome is then final. -/
def startPollRun : List (Option String) → PollResult
  | [] => ⟨false, false, false⟩
  | r :: rs =>
    let p := startPollTick r
    if p.stopped then p else startPollRun rs

/-- The loadedmetadata handler: restore the stored playback position only
when a stored value exists, is truthy (non-empty), and parses to a number
greater than 2; parseFloat is the JS primitive, modelled as a parameter
returning none for NaN. -/
def restoreOnMetadata (saved : Option String) (parseFloat : String → Option ℚ)
    (currentTime : ℚ) : ℚ :=
  match saved with
  | none => currentTime
  | some s =>
    if !s.isEmpty && (parseFloat s).any (fun v => decide (2 < v)) then
      (parseFloat s).getD currentTime
    else currentTime

/-- The three-segment transcript of the sync test in the spec. -/
def segs3 : List Seg := [⟨"s0", 0, 2⟩, ⟨"s1", 2, 4⟩, ⟨"s2", 5, 7⟩]

/-- The two-segment transcript of the transition test in the spec. -/
def segsAB : List Seg := [⟨"a", 0, 2⟩, ⟨"b", 2, 4⟩]

/-- A raw segment with no word list and untrimmed text. -/
def rawNoWords : RawSeg := ⟨[], some " hi ", 0, 1⟩

/-- A raw segment whose first word token is whitespace only. -/
def rawWordy : RawSeg := ⟨[⟨" ", 0, 1⟩, ⟨"cat", 1, 2⟩], none, 0, 0⟩

/-- A raw segment with whitespace-only text. -/
def rawBlank : RawSeg := ⟨[], some " ", 0, 1⟩

theorem qualAt_nil (t : ℚ) (i : Nat) : ¬ qualAt [] t i := by
  rintro ⟨s, hs, -⟩
  simp at hs

theorem qualAt_cons_zero {s : Seg} {rest : List Seg} {t : ℚ} :
    qualAt (s :: rest) t 0 ↔ s.start ≤ t ∧ t ≤ s.endT := by
  unfold qualAt
  simp

theorem qualAt_cons_succ {s : Seg} {rest : List Seg} {t : ℚ} {j : Nat} :
    qualAt (s :: rest) t (j + 1) ↔ qualAt rest t j := by
  unfold qualAt
  simp

theorem fullScanAux_none {t : ℚ} {segs : List Seg}
    (h : fullScanAux t segs = none) : ∀ i, ¬ qualAt segs t i := by
  induction segs with
  | nil => intro i; exact qualAt_nil t i
  | cons s rest ih =>
    rw [fullScanAux] at h
    by_cases hc : s.start ≤ t ∧ t ≤ s.endT
    · simp [hc] at h
    · simp only [if_neg hc, Option.map_eq_none'] at h
      intro i
      cases i with
      | zero => rw [qualAt_cons_zero]; exact hc
      | succ j => rw [qualAt_cons_succ]; exact ih h j

theorem fullScanAux_some {t : ℚ} {segs : List Seg} :
    ∀ {i : Nat}, fullScanAux t segs = some i →
      qualAt segs t i ∧ ∀ j, j < i → ¬ qualAt segs t j := by
  induction segs with
  | nil => intro i h; simp [fullScanAux] at h
  | cons s rest ih =>
    intro i h
    rw [fullScanAux] at h
    by_cases hc : s.start ≤ t ∧ t ≤ s.endT
    · rw [if_pos hc] at h
      obtain rfl : (0 : Nat) = i := Option.some.inj h
      exact ⟨qualAt_cons_zero.2 hc, fun j hj => absurd hj (Nat.not_lt_zero j)⟩
    · rw [if_neg hc, Option.map_eq_some'] at h
      obtain ⟨i2, hi2, rfl⟩ := h
      obtain ⟨hq, hmin⟩ := ih hi2
      refine ⟨qualAt_cons_succ.2 hq, ?_⟩
      intro j hj
      cases j with
      | zero => rw [qualAt_cons_zero]; exact hc
      | succ k =>
        rw [qualAt_cons_succ]
        exact hmin k (Nat.lt_of_succ_lt_succ hj)

theorem fullScanAux_eq_none_of_gt {t : ℚ} {l : List Seg}
    (h : ∀ s ∈ l, t < s.start) : fullScanAux t l = none := by
  induction l with
  | nil => rfl
  | cons s rest ih =>
    rw [fullScanAux]
    have h1 : ¬ (s.start ≤ t ∧ t ≤ s.endT) :=
      fun hc => absurd hc.1 (not_le.2 (h s (by simp)))
    rw [if_neg h1, ih fun s2 hs2 => h s2 (by simp [hs2])]
    rfl

theorem scanAux_eq_full {t : ℚ} {segs : List Seg}
    (hs : List.Pairwise (fun a b : Seg => a.start ≤ b.start) segs) :
    scanAux t segs = fullScanAux t segs := by
  induction segs with
  | nil => rfl
  | cons s rest ih =>
    rw [List.pairwise_cons] at hs
    obtain ⟨hhead, hrest⟩ := hs
    rw [scanAux, fullScanAux]
    by_cases hc : s.start ≤ t ∧ t ≤ s.endT
    · rw [if_pos ⟨hc.1, hc.2⟩, if_pos hc]
    · rw [if_neg fun h => hc ⟨h.1, h.2⟩, if_neg hc]
      by_cases hgt : s.start > t
      · rw [if_pos hgt,
          fullScanAux_eq_none_of_gt fun s2 hs2 => lt_of_lt_of_le hgt (hhead s2 hs2)]
        rfl
      · rw [if_neg hgt, ih hrest]

theorem findActive_eq_fullScanSpec {segs : List Seg} {t : ℚ}
    (hs : List.Pairwise (fun a b : Seg => a.start ≤ b.start) segs) :
    findActive segs t = fullScanSpec segs t := by
  rw [findActive, fullScanSpec, scanAux_eq_full hs]

/-- C1: for every segment list sorted by start time and every clock value c,
the per-frame scan computes t = c + 0.15 and selects the smallest index
whose segment satisfies start ≤ t ≤ end, returning -1 when no segment
qualifies; with several qualifying segments the earliest-indexed match
wins. -/
theorem claim_C1 (segs : List Seg) (c : ℚ)
    (hs : List.Pairwise (fun a b : Seg => a.start ≤ b.start) segs) :
    (frameIdx segs c = -1 ∧ ∀ i, ¬ qualAt segs (c + leadBias) i) ∨
    (∃ i : Nat, frameIdx segs c = (i : Int) ∧ qualAt segs (c + leadBias) i ∧
      ∀ j, j < i → ¬ qualAt segs (c + leadBias) j) := by
  rw [frameIdx, findActive, scanAux_eq_full hs]
  cases hfa : fullScanAux (c + leadBias) segs with
  | none => exact Or.inl ⟨rfl, fullScanAux_none hfa⟩
  | some i =>
    exact Or.inr ⟨i, rfl, (fullScanAux_some hfa).1, (fullScanAux_some hfa).2⟩

/-- C1 witness: concrete instance on the three-segment transcript at clock
1, so t = 1.15 lies inside segment 0. -/
theorem claim_C1_witness :
    (frameIdx segs3 1 = -1 ∧ ∀ i, ¬ qualAt segs3 (1 + leadBias) i) ∨
    (∃ i : Nat, frameIdx segs3 1 = (i : Int) ∧ qualAt segs3 (1 + leadBias) i ∧
      ∀ j, j < i → ¬ qualAt segs3 (1 + leadBias) j) :=
  claim_C1 segs3 1 (by decide)

/-- C7: on a segment list with non-decreasing start times, the implemented
scan with its early break returns the same index as the unoptimized full
scan over the whole list. -/
theorem claim_C7 (segs : List Seg) (t : ℚ)
    (hs : List.Pairwise (fun a b : Seg => a.start ≤ b.start) segs) :
    findActive segs t = fullScanSpec segs t :=
  findActive_eq_fullScanSpec hs

/-- C7 witness: concrete instance on the three-segment transcript. -/
theorem claim_C7_witness : findActive segs3 2 = fullScanSpec segs3 2 :=
  claim_C7 segs3 2 (by decide)

/-- C2 counterexample: at t = 2 the code selects segment 0, not segment 1
as the claim states, because the end bound is inclusive and the scan stops
at the first match. -/
theorem claim_C2_cex : findActive segs3 2 = 0 ∧ findActive segs3 2 ≠ 1 := by
  decide

/-- C2 amended: at t=1 segment 0 is active; at t=2 segment 0 is active (the
shared boundary belongs to the earlier segment, whose end bound is
inclusive); at t=4.5 no segment is active; at t=6 segment 2 is active. -/
theorem claim_C2 :
    findActive segs3 1 = 0 ∧ findActive segs3 2 = 0 ∧
    findActive segs3 (mkRat 9 2) = -1 ∧ findActive segs3 6 = 2 := by
  decide

/-- C3 counterexample: the code trims the reconstructed text, so the text
of a no-words segment is not preserved verbatim (input text " hi " becomes
"hi"), the text of a wordy segment is not the plain single-space join of
the trimmed tokens (tokens " " and "cat" would join to " cat" but the code
yields "cat"), and a whitespace-only no-words segment yields no output
segment at all. -/
theorem claim_C3_cex :
    buildcaptions [rawNoWords] = [⟨"hi", 0, 1⟩] ∧ ("hi" : String) ≠ " hi " ∧
    buildcaptions [rawWordy] = [⟨"cat", 0, 2⟩] ∧ ("cat" : String) ≠ " cat" ∧
    buildcaptions [rawBlank] = [] := by
  decide

/-- C3 amended: for a raw segment with a non-empty word list whose trimmed
single-space join of trimmed word tokens is non-empty, normalization yields
a segment with start from the first word, end from the last word, and text
equal to that trimmed join; for a raw segment with no words whose trimmed
text is non-empty, the bounds are preserved verbatim and the text is its
whitespace-trim; the spec example with words the and cat yields
start 0, end 0.5, text "the cat". -/
theorem claim_C3 :
    (∀ (pre post : List RawSeg) (seg : RawSeg) (hw : seg.words ≠ []),
      jsTrim (" ".intercalate (seg.words.map fun w => jsTrim w.word)) ≠ "" →
      normSeg seg = some ⟨jsTrim (" ".intercalate (seg.words.map fun w => jsTrim w.word)),
          (seg.words.head hw).start, (seg.words.getLast hw).endT⟩ ∧
        (⟨jsTrim (" ".intercalate (seg.words.map fun w => jsTrim w.word)),
          (seg.words.head hw).start, (seg.words.getLast hw).endT⟩ : Seg) ∈
          buildcaptions (pre ++ seg :: post)) ∧
    (∀ (seg : RawSeg) (txt : String), seg.words = [] → seg.text = some txt →
      jsTrim txt ≠ "" → normSeg seg = some ⟨jsTrim txt, seg.start, seg.endT⟩) ∧
    buildcaptions [⟨[⟨"the", 0, mkRat 1 5⟩, ⟨"cat", mkRat 1 5, mkRat 1 2⟩], none, 0, 0⟩] =
      [⟨"the cat", 0, mkRat 1 2⟩] := by
  refine ⟨?_, ?_, by decide⟩
  · intro pre post seg hw ht
    have hlen : seg.words.length > 0 := List.length_pos.2 hw
    have htext : segText seg =
        jsTrim (" ".intercalate (seg.words.map fun w => jsTrim w.word)) := by
      rw [segText, rawText, if_pos hlen]
    have hnorm : normSeg seg =
        some ⟨jsTrim (" ".intercalate (seg.words.map fun w => jsTrim w.word)),
          (seg.words.head hw).start, (seg.words.getLast hw).endT⟩ := by
      rw [normSeg]
      simp only [htext, if_neg ht, if_pos hlen, List.head?_eq_head hw,
        List.getLast?_eq_getLast _ hw, Option.map_some', Option.getD_some]
    refine ⟨hnorm, ?_⟩
    rw [buildcaptions]
    exact List.mem_filterMap.2 ⟨seg, by simp, hnorm⟩
  · intro seg txt hw htxt ht
    have hlen : ¬ seg.words.length > 0 := by simp [hw]
    have htext : segText seg = jsTrim txt := by
      rw [segText, rawText, if_neg hlen, htxt]
      rfl
    rw [normSeg]
    simp only [htext, if_neg ht, if_neg hlen]

/-- C3 witness: the amended word-list case at a concrete raw segment. -/
theorem claim_C3_witness :
    (⟨"the cat", 0, 1⟩ : Seg) ∈
      buildcaptions ([] ++ ⟨[⟨"the", 0, mkRat 1 2⟩, ⟨"cat", mkRat 1 2, 1⟩], none, 0, 0⟩ :: []) :=
  (claim_C3.1 [] [] _ (by decide) (by decide)).2

/-- C4: a raw segment whose reconstructed text trims to empty contributes
nothing to the output, and every output segment carries non-empty text that
is the trimmed reconstruction of some raw input segment. -/
theorem claim_C4 (data : List RawSeg) :
    (∀ seg ∈ data, jsTrim (rawText seg) = "" → normSeg seg = none) ∧
    (∀ s ∈ buildcaptions data, s.text ≠ "" ∧
      ∃ seg ∈ data, s.text = jsTrim (rawText seg)) := by
  constructor
  · intro seg _ h
    rw [normSeg]
    simp [segText, h]
  · intro s hs
    rw [buildcaptions] at hs
    obtain ⟨seg, hmem, hn⟩ := List.mem_filterMap.1 hs
    rw [normSeg] at hn
    by_cases h : segText seg = ""
    · simp [h] at hn
    · rw [if_neg h] at hn
      obtain rfl := Option.some.inj hn
      exact ⟨h, seg, hmem, rfl⟩

/-- C4 witness: the concrete no-words segment yields text "hi", which is
non-empty and is the trimmed reconstruction of the input. -/
theorem claim_C4_witness :
    (⟨"hi", 0, 1⟩ : Seg).text ≠ "" ∧
    ∃ seg ∈ [rawNoWords], (⟨"hi", 0, 1⟩ : Seg).text = jsTrim (rawText seg) :=
  (claim_C4 [rawNoWords]).2 ⟨"hi", 0, 1⟩ (by decide)

theorem r1910 : (mkRat 19 10 : ℚ) = 19 / 10 := by
  norm_num [Rat.mkRat_eq_div]

theorem r2110 : (mkRat 21 10 : ℚ) = 21 / 10 := by
  norm_num [Rat.mkRat_eq_div]

theorem leadBias_eq : (leadBias : ℚ) = 3 / 20 := by
  norm_num [leadBias, Rat.mkRat_eq_div]

/-- Between t = 1.9 and t = 2.1 the scan on the two-segment transcript
selects segment 0 up to and including the boundary and segment 1 after
it. -/
theorem findActive_AB {t : ℚ} (h1 : mkRat 19 10 ≤ t) (h2 : t ≤ mkRat 21 10) :
    findActive segsAB t = if t ≤ 2 then 0 else 1 := by
  rw [r1910] at h1
  rw [r2110] at h2
  by_cases hc : t ≤ 2
  · have h0 : (0 : ℚ) ≤ t := by linarith
    rw [if_pos hc]
    simp [findActive, scanAux, segsAB, h0, hc]
  · push_neg at hc
    have hcond0 : ¬ (t ≥ (0 : ℚ) ∧ t ≤ (2 : ℚ)) := fun h => absurd h.2 (not_le.2 hc)
    have hbrk : ¬ ((0 : ℚ) > t) := not_lt.2 (by linarith)
    have hcond1 : t ≥ (2 : ℚ) ∧ t ≤ (4 : ℚ) := ⟨le_of_lt hc, by linarith⟩
    rw [if_neg (not_le.2 hc)]
    simp [findActive, scanAux, segsAB, hcond0, hbrk, hcond1]

/-- A frame whose computed index matches the stored one changes nothing and
emits nothing, for any segment list, visibility and state. -/
theorem syncNoChange (segs : List Seg) (captionsVisible : Bool) (c : ℚ)
    (st : SyncState) (h : frameIdx segs c = st.activeIdx) :
    synccaptions segs captionsVisible c st = st ∧
    frameEvents segs captionsVisible c st = [] := by
  have hsync : synccaptions segs captionsVisible c st = st := by
    rw [synccaptions]
    split
    · rfl
    · simp [h]
  exact ⟨hsync, by rw [frameEvents]; simp [hsync]⟩

/-- Evaluation of a frame with a changed index on a non-empty visible
transcript: the new index is stored and the caption swapped. -/
theorem syncStep_eval (segs : List Seg) (c : ℚ) (st : SyncState)
    (hne : segs.isEmpty = false) (hch : frameIdx segs c ≠ st.activeIdx) :
    synccaptions segs true c st =
      ⟨frameIdx segs c,
        if frameIdx segs c = -1 then ""
        else ((segs[(frameIdx segs c).toNat]?).map Seg.text).getD ""⟩ := by
  rw [synccaptions, hne]
  simp [hch]

/-- A frame before the boundary keeps segment 0 active and emits nothing. -/
theorem stepAB_low {c : ℚ} (h1 : mkRat 19 10 ≤ c + leadBias)
    (h2 : c + leadBias ≤ 2) :
    synccaptions segsAB true c ⟨0, "a"⟩ = ⟨0, "a"⟩ ∧
    frameEvents segsAB true c ⟨0, "a"⟩ = [] := by
  have h2b : c + leadBias ≤ mkRat 21 10 := by
    rw [r2110]; linarith
  have hidx : frameIdx segsAB c = 0 := by
    rw [frameIdx, findActive_AB h1 h2b, if_pos h2]
  exact syncNoChange segsAB true c ⟨0, "a"⟩ hidx

/-- The frame that crosses the boundary from segment 0 swaps to segment 1
and emits exactly one leave of 0 followed by one enter of 1. -/
theorem stepAB_cross {c : ℚ} (h1 : mkRat 19 10 ≤ c + leadBias)
    (h2 : c + leadBias ≤ mkRat 21 10) (h3 : 2 < c + leadBias) :
    synccaptions segsAB true c ⟨0, "a"⟩ = ⟨1, "b"⟩ ∧
    frameEvents segsAB true c ⟨0, "a"⟩ = [Ev.leave 0, Ev.enter 1] := by
  have hidx : frameIdx segsAB c = 1 := by
    rw [frameIdx, findActive_AB h1 h2, if_neg (not_le.2 h3)]
  have hstep : synccaptions segsAB true c ⟨0, "a"⟩ = ⟨1, "b"⟩ := by
    rw [syncStep_eval segsAB c ⟨0, "a"⟩ rfl (by rw [hidx]; decide), hidx]
    decide
  refine ⟨hstep, ?_⟩
  rw [frameEvents]
  simp only [hstep]
  decide

/-- A frame after the boundary keeps segment 1 active and emits nothing. -/
theorem stepAB_high {c : ℚ} (h1 : mkRat 19 10 ≤ c + leadBias)
    (h2 : c + leadBias ≤ mkRat 21 10) (h3 : 2 < c + leadBias) :
    synccaptions segsAB true c ⟨1, "b"⟩ = ⟨1, "b"⟩ ∧
    frameEvents segsAB true c ⟨1, "b"⟩ = [] := by
  have hidx : frameIdx segsAB c = 1 := by
    rw [frameIdx, findActive_AB h1 h2, if_neg (not_le.2 h3)]
  exact syncNoChange segsAB true c ⟨1, "b"⟩ hidx

/-- After the transition, a run over clocks all past the boundary stays on
segment 1 and emits nothing. -/
theorem runAB_high (cs : List ℚ)
    (hall : ∀ c ∈ cs, (mkRat 19 10 ≤ c + leadBias ∧ c + leadBias ≤ mkRat 21 10) ∧
      2 < c + leadBias) :
    runFrames segsAB true ⟨1, "b"⟩ cs = (⟨1, "b"⟩, []) := by
  induction cs with
  | nil => rfl
  | cons c cs ih =>
    obtain ⟨⟨h1, h2⟩, h3⟩ := hall c (by simp)
    obtain ⟨hst, hev⟩ := stepAB_high h1 h2 h3
    rw [runFrames]
    simp only [hev, hst, ih fun c2 hc2 => hall c2 (by simp [hc2])]
    rfl

/-- Over any sorted clock list within the 1.9 to 2.1 window, a run started
with segment 0 active either emits nothing (no sample past the boundary) or
emits exactly one leave of segment 0 and one enter of segment 1. -/
theorem runAB_events (cs : List ℚ) (hsort : List.Pairwise (· ≤ ·) cs)
    (hrange : ∀ c ∈ cs, mkRat 19 10 ≤ c + leadBias ∧ c + leadBias ≤ mkRat 21 10) :
    ((runFrames segsAB true ⟨0, "a"⟩ cs).2 = [] ∧ ∀ c ∈ cs, c + leadBias ≤ 2) ∨
    ((runFrames segsAB true ⟨0, "a"⟩ cs).2 = [Ev.leave 0, Ev.enter 1] ∧
      ∃ c ∈ cs, 2 < c + leadBias) := by
  induction cs with
  | nil => exact Or.inl ⟨rfl, by simp⟩
  | cons c cs ih =>
    rw [List.pairwise_cons] at hsort
    obtain ⟨hhead, htail⟩ := hsort
    obtain ⟨h1, h2⟩ := hrange c (by simp)
    by_cases hc : c + leadBias ≤ 2
    · obtain ⟨hst, hev⟩ := stepAB_low h1 hc
      rcases ih htail (fun c2 hc2 => hrange c2 (by simp [hc2])) with
        ⟨he, hall⟩ | ⟨he, hex⟩
      · refine Or.inl ⟨?_, ?_⟩
        · rw [runFrames]; simp only [hev, hst, he]; rfl
        · intro c2 hc2
          rcases List.mem_cons.1 hc2 with rfl | hmem
          · exact hc
          · exact hall c2 hmem
      · refine Or.inr ⟨?_, ?_⟩
        · rw [runFrames]; simp only [hev, hst, he]; rfl
        · obtain ⟨c2, hc2, hgt⟩ := hex
          exact ⟨c2, by simp [hc2], hgt⟩
    · push_neg at hc
      obtain ⟨hst, hev⟩ := stepAB_cross h1 h2 hc
      have hrest : runFrames segsAB true ⟨1, "b"⟩ cs = (⟨1, "b"⟩, []) := by
        apply runAB_high
        intro c2 hc2
        obtain ⟨h1b, h2b⟩ := hrange c2 (by simp [hc2])
        have hle : c ≤ c2 := hhead c2 hc2
        exact ⟨⟨h1b, h2b⟩, by linarith⟩
      refine Or.inr ⟨?_, ⟨c, by simp, hc⟩⟩
      rw [runFrames]
      simp only [hev, hst, hrest]
      rfl

/-- A frame whose computed index differs from the stored one stores the new
index, emits exactly one leave of the old segment (when there was one) and
one enter of the new one (when there is one), and clears the caption when
the new index is -1. -/
theorem syncChange (segs : List Seg) (c : ℚ) (st : SyncState)
    (hne : segs ≠ []) (hch : frameIdx segs c ≠ st.activeIdx) :
    (synccaptions segs true c st).activeIdx = frameIdx segs c ∧
    (0 ≤ st.activeIdx →
      (frameEvents segs true c st).count (Ev.leave st.activeIdx.toNat) = 1) ∧
    (0 ≤ frameIdx segs c →
      (frameEvents segs true c st).count (Ev.enter (frameIdx segs c).toNat) = 1) ∧
    (frameIdx segs c = -1 → synccaptions segs true c st = ⟨-1, ""⟩) := by
  obtain ⟨s0, ss, rfl⟩ := List.exists_cons_of_ne_nil hne
  have hsync : synccaptions (s0 :: ss) true c st =
      { activeIdx := frameIdx (s0 :: ss) c,
        caption := if frameIdx (s0 :: ss) c = -1 then ""
          else (((s0 :: ss)[(frameIdx (s0 :: ss) c).toNat]?).map Seg.text).getD "" } := by
    rw [synccaptions]
    simp [hch]
  have hev : frameEvents (s0 :: ss) true c st =
      (if 0 ≤ st.activeIdx then [Ev.leave st.activeIdx.toNat] else []) ++
        (if 0 ≤ frameIdx (s0 :: ss) c then [Ev.enter (frameIdx (s0 :: ss) c).toNat]
          else []) := by
    rw [frameEvents]
    simp only [hsync]
    rw [if_neg hch]
  refine ⟨by rw [hsync], ?_, ?_, ?_⟩
  · intro hold
    rw [hev, if_pos hold, List.count_append]
    split
    · simp
    · simp
  · intro hnew
    rw [hev, if_pos hnew, List.count_append]
    split
    · simp
    · simp
  · intro hm1
    rw [hsync, hm1]
    rfl

/-- C5: a frame with an unchanged computed index emits no highlight change;
a frame with a changed index atomically stores the new index, emitting
exactly one exit of the old segment and one enter of the new one, and a
computed index of -1 clears the caption; moving the clock through the 0 to
1 boundary of the two-segment transcript emits exactly one exit of segment
0 and one enter of segment 1, with no run ever emitting anything else. -/
theorem claim_C5 :
    (∀ (segs : List Seg) (captionsVisible : Bool) (c : ℚ) (st : SyncState),
      frameIdx segs c = st.activeIdx →
      synccaptions segs captionsVisible c st = st ∧
      frameEvents segs captionsVisible c st = []) ∧
    (∀ (segs : List Seg) (c : ℚ) (st : SyncState), segs ≠ [] →
      frameIdx segs c ≠ st.activeIdx →
      (synccaptions segs true c st).activeIdx = frameIdx segs c ∧
      (0 ≤ st.activeIdx →
        (frameEvents segs true c st).count (Ev.leave st.activeIdx.toNat) = 1) ∧
      (0 ≤ frameIdx segs c →
        (frameEvents segs true c st).count (Ev.enter (frameIdx segs c).toNat) = 1) ∧
      (frameIdx segs c = -1 → synccaptions segs true c st = ⟨-1, ""⟩)) ∧
    (∀ cs : List ℚ, List.Pairwise (· ≤ ·) cs →
      (∀ c ∈ cs, mkRat 19 10 ≤ c + leadBias ∧ c + leadBias ≤ mkRat 21 10) →
      ((runFrames segsAB true ⟨0, "a"⟩ cs).2 = [] ∧ ∀ c ∈ cs, c + leadBias ≤ 2) ∨
      ((runFrames segsAB true ⟨0, "a"⟩ cs).2 = [Ev.leave 0, Ev.enter 1] ∧
        ∃ c ∈ cs, 2 < c + leadBias)) :=
  ⟨syncNoChange, syncChange, runAB_events⟩

/-- C5 witness: the crossing run over clocks 1.75 and 1.95, whose biased
times 1.9 and 2.1 straddle the boundary. -/
theorem claim_C5_witness :
    ((runFrames segsAB true ⟨0, "a"⟩ [mkRat 7 4, mkRat 39 20]).2 = [] ∧
      ∀ c ∈ [mkRat 7 4, mkRat 39 20], c + leadBias ≤ 2) ∨
    ((runFrames segsAB true ⟨0, "a"⟩ [mkRat 7 4, mkRat 39 20]).2 =
        [Ev.leave 0, Ev.enter 1] ∧
      ∃ c ∈ [mkRat 7 4, mkRat 39 20], 2 < c + leadBias) :=
  claim_C5.2.2 [mkRat 7 4, mkRat 39 20] (by decide)
    (by
      intro c hc
      rcases List.mem_cons.1 hc with rfl | hc2
      · refine ⟨?_, ?_⟩ <;> norm_num [Rat.mkRat_eq_div, leadBias]
      rcases List.mem_cons.1 hc2 with rfl | hc3
      · refine ⟨?_, ?_⟩ <;> norm_num [Rat.mkRat_eq_div, leadBias]
      simp at hc3)

/-- C6: the active index stored by a frame is determined by the segment
list and the clock alone; any two states, for instance one reached by a
backward seek and one fresh, lead to the same stored index. -/
theorem claim_C6 (segs : List Seg) (c : ℚ) (st st2 : SyncState)
    (hne : segs ≠ []) :
    (synccaptions segs true c st).activeIdx = frameIdx segs c ∧
    (synccaptions segs true c st).activeIdx =
      (synccaptions segs true c st2).activeIdx := by
  have key : ∀ s : SyncState, (synccaptions segs true c s).activeIdx = frameIdx segs c := by
    intro s
    obtain ⟨s0, ss, rfl⟩ := List.exists_cons_of_ne_nil hne
    rw [synccaptions]
    by_cases h : frameIdx (s0 :: ss) c = s.activeIdx
    · simp [h]
    · simp [h]
  exact ⟨key st, (key st).trans (key st2).symm⟩

/-- C6 witness: a stale state with index 2 and a fresh state with index -1
agree after one frame on the three-segment transcript. -/
theorem claim_C6_witness :
    (synccaptions segs3 true 1 ⟨2, "s2"⟩).activeIdx = frameIdx segs3 1 ∧
    (synccaptions segs3 true 1 ⟨2, "s2"⟩).activeIdx =
      (synccaptions segs3 true 1 ⟨-1, ""⟩).activeIdx :=
  claim_C6 segs3 1 ⟨2, "s2"⟩ ⟨-1, ""⟩ (by decide)

/-- C8: on an empty transcript every frame terminates and leaves the state,
both stored index and displayed caption, unchanged, emitting nothing. -/
theorem claim_C8 (captionsVisible : Bool) (c : ℚ) (st : SyncState) :
    synccaptions [] captionsVisible c st = st ∧
    frameEvents [] captionsVisible c st = [] := by
  have h : synccaptions [] captionsVisible c st = st := by
    rw [synccaptions]
    simp
  exact ⟨h, by rw [frameEvents]; simp [h]⟩

/-- C9: a poll tick opens the reader exactly when the polled status is
completed; on status error it stops polling, shows the error and does not
open the reader; and a whole polling run whose first terminal status is
error ends with the error outcome, never opening the reader, whatever
arrives afterwards. -/
theorem claim_C9 :
    (∀ resp : Option String,
      (startPollTick resp).openReader = true ↔ resp = some "completed") ∧
    (∀ resp : Option String, resp = some "error" →
      (startPollTick resp).stopped = true ∧ (startPollTick resp).errorShown = true ∧
        (startPollTick resp).openReader = false) ∧
    (∀ pre rest : List (Option String),
      (∀ r ∈ pre, (startPollTick r).stopped = false) →
      startPollRun (pre ++ some "error" :: rest) = ⟨true, false, true⟩) := by
  refine ⟨?_, ?_, ?_⟩
  · intro resp
    cases resp with
    | none => simp [startPollTick]
    | some s =>
      rw [startPollTick]
      by_cases h1 : s = "completed"
      · simp [h1]
      · by_cases h2 : s = "error" <;> simp [h1, h2]
  · rintro resp rfl
    decide
  · intro pre rest hpre
    induction pre with
    | nil => simp [startPollRun, startPollTick]
    | cons r rs ih =>
      rw [List.cons_append, startPollRun]
      simp only [hpre r (by simp)]
      exact ih fun r2 hr2 => hpre r2 (by simp [hr2])

/-- C9 witness: a run that polls once without a terminal status, then sees
an error, stops with the error outcome even though a completed status
arrives later. -/
theorem claim_C9_witness :
    startPollRun ([some "transcribing"] ++ some "error" :: [some "completed"]) =
      ⟨true, false, true⟩ :=
  claim_C9.2.2 [some "transcribing"] [some "completed"] (by decide)

/-- C10: on metadata load the playback position is restored from the stored
value only when it parses to a number strictly greater than 2; an absent
value, an unparsable value, or a parsed value of at most 2 leaves the
position untouched. The parseFloat primitive is any parser that fails on
the empty string, as the JS one does. -/
theorem claim_C10 (saved : Option String) (parseFloat : String → Option ℚ)
    (currentTime : ℚ) (hp : parseFloat "" = none) :
    (saved = none → restoreOnMetadata saved parseFloat currentTime = currentTime) ∧
    (∀ s, saved = some s → parseFloat s = none →
      restoreOnMetadata saved parseFloat currentTime = currentTime) ∧
    (∀ s v, saved = some s → parseFloat s = some v → v ≤ 2 →
      restoreOnMetadata saved parseFloat currentTime = currentTime) ∧
    (∀ s v, saved = some s → parseFloat s = some v → 2 < v →
      restoreOnMetadata saved parseFloat currentTime = v) := by
  refine ⟨?_, ?_, ?_, ?_⟩
  · rintro rfl
    rfl
  · rintro s rfl hn
    rw [restoreOnMetadata]
    simp [hn]
  · rintro s v rfl hv hle
    rw [restoreOnMetadata]
    simp [hv, not_lt.2 hle]
  · rintro s v rfl hv hgt
    have hse : s.isEmpty = false := by
      cases hes : s.isEmpty
      · rfl
      · rw [String.isEmpty_iff] at hes
        rw [hes, hp] at hv
        cases hv
    rw [restoreOnMetadata]
    simp [hse, hv, hgt]

/-- C10 witness: a stored value parsing to 3 is restored; the hypotheses
are discharged with a concrete parser. -/
theorem claim_C10_witness :
    restoreOnMetadata (some "3")
      (fun s => if s = "3" then some 3 else none) 0 = 3 :=
  (claim_C10 (some "3") (fun s => if s = "3" then some 3 else none) 0
      (by decide)).2.2.2 "3" 3 rfl (by decide) (by norm_num)

end Audiolens
